import Mathlib

/-!
Shallow embedding of the timeline ingestion pipeline of this repository
(`convex/pipeline.ts`, `convex/llm.ts`, `convex/persons.ts`, `convex/schema.ts`).

Modelling conventions:
* JS strings are `List Char`; JS numbers are `ℚ` (every IEEE double value is a
  rational); similarity scores, which pass through `Math.sqrt`, live in `ℝ`.
* Database tables are Lean lists kept in the order of the index that the
  corresponding query reads (for `.withIndex(...).take/collect`, list order is
  index order; newly inserted rows are appended, matching `_creationTime`
  ordering for rows created in call order).
* `Array.prototype.sort` with a numeric comparator is modelled by the stable
  `List.mergeSort` with the matching boolean relation.
* Structurally recursive helpers that mirror JS `while` loops carry an explicit
  fuel argument; callers pass a fuel that provably dominates the loop length,
  so the fuel clause is never the returned branch on the inputs of interest.
-/

namespace Timeline

/-- Character class of the JS regex `\s` (also the set trimmed by
`String.prototype.trim`): space, tab, LF, VT, FF, CR, NBSP, and the Unicode
space separators the ECMAScript spec lists. -/
def isJsSpace (c : Char) : Bool :=
  let n := c.toNat
  n == 9 || n == 10 || n == 11 || n == 12 || n == 13 || n == 32 ||
    n == 0xa0 || n == 0x1680 || (0x2000 ≤ n && n ≤ 0x200a) ||
    n == 0x2028 || n == 0x2029 || n == 0x202f || n == 0x205f ||
    n == 0x3000 || n == 0xfeff

/-- Character class `[0-9a-fA-F]` used by the broken-escape regex of
`sanitizeText` (pipeline.ts:122). -/
def isHexDigit (c : Char) : Bool :=
  ('0' ≤ c && c ≤ '9') || ('a' ≤ c && c ≤ 'f') || ('A' ≤ c && c ≤ 'F')

/-- Character class `[\x00-\x08\x0B\x0C\x0E-\x1F\x7F]` removed by
`sanitizeText` (pipeline.ts:124): control characters except tab, LF, CR. -/
def isStrippedControl (c : Char) : Bool :=
  let n := c.toNat
  n ≤ 8 || n == 11 || n == 12 || (14 ≤ n && n ≤ 31) || n == 127

/-- One pass of the regex replace
`/\\u[0-9a-fA-F]{0,3}(?![0-9a-fA-F])/g → ""` (pipeline.ts:122): a literal
`\u` followed by at most three hex digits is removed when the next character
is not a further hex digit (a complete `\uXXXX` escape survives, because
every greedy/backtracked match attempt is vetoed by the lookahead).  The fuel
dominates the input length: every step consumes at least one character. -/
def stripBadEscapesAux : ℕ → List Char → List Char
  | 0, l => l
  | _ + 1, [] => []
  | fuel + 1, '\\' :: 'u' :: rest =>
      let hexs := rest.takeWhile isHexDigit
      if 4 ≤ hexs.length then '\\' :: 'u' :: stripBadEscapesAux fuel rest
      else stripBadEscapesAux fuel (rest.drop hexs.length)
  | fuel + 1, c :: rest => c :: stripBadEscapesAux fuel rest

/-- The broken-unicode-escape removal of `sanitizeText` (pipeline.ts:122). -/
def stripBadEscapes (l : List Char) : List Char :=
  stripBadEscapesAux l.length l

/-- `sanitizeText` (pipeline.ts:119-125): drop incomplete unicode escapes,
then drop the non-printable control characters (keeping tab/LF/CR). -/
def sanitizeText (l : List Char) : List Char :=
  (stripBadEscapes l).filter (fun c => !isStrippedControl c)

/-- One pass of `.replace(/\s+/g, " ")` (pipeline.ts:128): every maximal run
of JS whitespace becomes a single space.  Fuel dominates the input length. -/
def collapseWsAux : ℕ → List Char → List Char
  | 0, l => l
  | _ + 1, [] => []
  | fuel + 1, c :: rest =>
      if isJsSpace c then ' ' :: collapseWsAux fuel (rest.dropWhile isJsSpace)
      else c :: collapseWsAux fuel rest

/-- `.replace(/\s+/g, " ")` on a whole string. -/
def collapseWs (l : List Char) : List Char :=
  collapseWsAux l.length l

/-- `String.prototype.trim`: strip JS whitespace from both ends. -/
def trimChars (l : List Char) : List Char :=
  ((l.dropWhile isJsSpace).reverse.dropWhile isJsSpace).reverse

/-- The `clean` computation of `splitChunks` (pipeline.ts:128):
`sanitizeText(text).replace(/\s+/g, " ").trim()`. -/
def normalizeText (l : List Char) : List Char :=
  trimChars (collapseWs (sanitizeText l))

/-- The slicing loop of `splitChunks` (pipeline.ts:130-137): contiguous
non-overlapping windows of `m` characters (`slice(cursor, cursor+m)` is
`take`/`drop`).  Fuel dominates the loop count since each step consumes at
least one character when `0 < m`. -/
def sliceWindowsAux (m : ℕ) : ℕ → List Char → List (List Char)
  | 0, _ => []
  | _ + 1, [] => []
  | fuel + 1, s@(_ :: _) => s.take m :: sliceWindowsAux m fuel (s.drop m)

/-- Window slicing with cursor arithmetic as in the source.  With `m = 0` the
source loop never advances its cursor (divergence); the model returns `[]`
there, and every claim concerns the default `m = 1200`. -/
def sliceWindows (m : ℕ) (s : List Char) : List (List Char) :=
  if m = 0 then [] else sliceWindowsAux m s.length s

/-- `splitChunks(text, maxChars)` (pipeline.ts:127-138). -/
def splitChunks (text : List Char) (maxChars : ℕ) : List (List Char) :=
  let clean := normalizeText text
  if clean = [] then [] else sliceWindows maxChars clean

/-- `splitChunks(text)` with the source's default `maxChars = 1200`, the form
used by the embed phase (pipeline.ts:1154). -/
def splitChunksDefault (text : List Char) : List (List Char) :=
  splitChunks text 1200

/-- The accumulation loop of `cosineSimilarity` (pipeline.ts:145-149):
`dotProd a b` is `Σ a[i]*b[i]`; the source only runs the loop on equal-length
vectors, which this recursion agrees with there. -/
def dotProd : List ℚ → List ℚ → ℚ
  | x :: xs, y :: ys => x * y + dotProd xs ys
  | _, _ => 0

/-- `cosineSimilarity` (pipeline.ts:140-152): zero for empty or mismatched
lengths, zero when either magnitude is zero (`!magA || !magB`), otherwise
`dot / (sqrt magA * sqrt magB)`. -/
noncomputable def cosineSimilarity (a b : List ℚ) : ℝ :=
  if a.length = 0 ∨ b.length = 0 ∨ a.length ≠ b.length then 0
  else if dotProd a a = 0 ∨ dotProd b b = 0 then 0
  else (dotProd a b : ℝ) / (Real.sqrt (dotProd a a) * Real.sqrt (dotProd b b))

/-- A row of the `chunks` table as read by retrieval (pipeline.ts:1250-1255). -/
structure ChunkDoc where
  id : ℕ
  text : List Char
  citation : List Char
  embedding : List ℚ
deriving DecidableEq

/-- A chunk paired with its cosine score (pipeline.ts:1257-1260). -/
structure ScoredChunk where
  chunk : ChunkDoc
  score : ℝ

/-- A returned chunk record `{id, text, citation, score}` (pipeline.ts:1300-1305). -/
structure SelectedChunk where
  id : ℕ
  text : List Char
  citation : List Char
  score : ℝ

/-- The result shape of `scoreAndSelectChunks` (pipeline.ts:1269-1272). -/
structure RetrievalOutput where
  usedFallback : Bool
  chunks : List SelectedChunk

/-- Scoring map of `scoreAndSelectChunks` (pipeline.ts:1280, 1293). -/
noncomputable def scoreChunks (q : List ℚ) (chunks : List ChunkDoc) : List ScoredChunk :=
  chunks.map (fun c => ⟨c, cosineSimilarity q c.embedding⟩)

/-- The comparator `(a, b) => b.score - a.score`: descending by score. -/
noncomputable def byScoreDesc (a b : ScoredChunk) : Bool :=
  decide (b.score ≤ a.score)

/-- Score, sort descending (stable JS sort), keep the first `topK`
(pipeline.ts:1279-1282 and 1292-1295). -/
noncomputable def rankTopK (q : List ℚ) (pool : List ChunkDoc) (topK : ℕ) : List ScoredChunk :=
  ((scoreChunks q pool).mergeSort byScoreDesc).take topK

/-- Projection to the returned record (pipeline.ts:1300-1305). -/
def toSelected (s : ScoredChunk) : SelectedChunk :=
  ⟨s.chunk.id, s.chunk.text, s.chunk.citation, s.score⟩

/-- `scoreAndSelectChunks` (pipeline.ts:1262-1308).  The query embedding and
the two chunk-table reads are inputs; `topKArg` models the optional `topK`
argument with its `?? 8` default. -/
noncomputable def scoreAndSelectChunks (qEmbedding : List ℚ)
    (stageChunks allChunks : List ChunkDoc) (topKArg : Option ℕ) : RetrievalOutput :=
  let topK := topKArg.getD 8
  let scoredStage := rankTopK qEmbedding stageChunks topK
  if scoredStage.length < max 3 (topK / 2) then
    ⟨true, (rankTopK qEmbedding allChunks topK).map toSelected⟩
  else
    ⟨false, scoredStage.map toSelected⟩

/-- An LLM stage draft before normalization (`Partial<StageDraft>`,
pipeline.ts:22-33 and 83).  `none` in a numeric field models a missing field
or a non-finite number; `none` in a string field models a missing field or a
non-string value; a `none` entry of `turningPoints` models a non-string array
element. -/
structure RawStageDraft where
  order : Option ℚ
  title : Option (List Char)
  ageStart : Option ℚ
  ageEnd : Option ℚ
  dateStart : Option (List Char)
  dateEnd : Option (List Char)
  eraSummary : Option (List Char)
  worldviewSummary : Option (List Char)
  turningPoints : Option (List (Option (List Char)))
  confidence : Option ℚ
deriving DecidableEq

/-- A normalized stage draft (pipeline.ts:22-33). -/
structure StageDraft where
  order : ℚ
  title : List Char
  ageStart : ℚ
  ageEnd : ℚ
  dateStart : List Char
  dateEnd : List Char
  eraSummary : List Char
  worldviewSummary : List Char
  turningPoints : List (List Char)
  confidence : ℚ
deriving DecidableEq

/-- `safeNumber` (pipeline.ts:84-85). -/
def safeNumber (v : Option ℚ) (fallback : ℚ) : ℚ :=
  v.getD fallback

/-- `safeString` (pipeline.ts:86-87): a non-blank string is kept trimmed,
anything else falls back. -/
def safeString (v : Option (List Char)) (fallback : List Char) : List Char :=
  match v with
  | some s => if trimChars s = [] then fallback else trimChars s
  | none => fallback

/-- `safeArray` (pipeline.ts:88-89): keep the non-blank string elements,
untrimmed. -/
def safeArray (v : Option (List (Option (List Char)))) : List (List Char) :=
  match v with
  | some items => items.filterMap (fun it =>
      match it with
      | some s => if trimChars s = [] then none else some s
      | none => none)
  | none => []

/-- Decimal rendering of a number inside a template literal.  Exact for
integers, which are the only values the claims exercise. -/
def qToChars (q : ℚ) : List Char :=
  if q.den = 1 then (toString q.num).data else (toString q).data

def strUnnamedEraTail : String := "] - Unnamed Era"

def strUnknown : String := "unknown"

def strNoEraSummary : String := "Biography era summary unavailable."

def strNoWorldview : String := "Worldview summary unavailable."

/-- The fallback title template `[${ageStart}-${ageEnd}] - Unnamed Era`
(pipeline.ts:97). -/
def defaultTitle (ageStart ageEnd : ℚ) : List Char :=
  '[' :: (qToChars ageStart ++ '-' :: (qToChars ageEnd ++ strUnnamedEraTail.data))

/-- `normalizeStageDraft` (pipeline.ts:83-107). -/
def normalizeStageDraft (raw : RawStageDraft) (index : ℕ) : StageDraft :=
  let order := safeNumber raw.order index
  let ageStart := safeNumber raw.ageStart (max 0 ((index : ℚ) * 10))
  let ageEnd := safeNumber raw.ageEnd (ageStart + 9)
  { order := order
    title := safeString raw.title (defaultTitle ageStart ageEnd)
    ageStart := ageStart
    ageEnd := ageEnd
    dateStart := safeString raw.dateStart strUnknown.data
    dateEnd := safeString raw.dateEnd strUnknown.data
    eraSummary := safeString raw.eraSummary strNoEraSummary.data
    worldviewSummary := safeString raw.worldviewSummary strNoWorldview.data
    turningPoints := (safeArray raw.turningPoints).take 6
    confidence := safeNumber raw.confidence (1 / 2) }

/-- A row of the `stages` table (schema.ts). -/
structure StageRow where
  personId : ℕ
  order : ℚ
  title : List Char
  ageStart : ℚ
  ageEnd : ℚ
  dateStart : List Char
  dateEnd : List Char
  eraSummary : List Char
  worldviewSummary : List Char
  turningPoints : List (List Char)
  confidence : ℚ
  createdAt : ℕ
deriving DecidableEq

/-- The comparator `(a, b) => a.order - b.order` (pipeline.ts:1566):
stable ascending sort by `order`. -/
def draftLE (a b : StageDraft) : Bool :=
  decide (a.order ≤ b.order)

/-- The insert of `replaceStages` (pipeline.ts:1567-1580): the draft's own
`order` value is stored, unchanged. -/
def stageRowOfDraft (personId now : ℕ) (d : StageDraft) : StageRow :=
  ⟨personId, d.order, d.title, d.ageStart, d.ageEnd, d.dateStart, d.dateEnd,
   d.eraSummary, d.worldviewSummary, d.turningPoints, d.confidence, now⟩

/-- `replaceStages` (pipeline.ts:1538-1585): delete every stage of the
person, then insert the drafts sorted ascending by their `order` field. -/
def replaceStages (personId now : ℕ) (drafts : List StageDraft)
    (stages : List StageRow) : List StageRow :=
  (stages.filter (fun s => s.personId != personId)) ++
    ((drafts.mergeSort draftLE).map (stageRowOfDraft personId now))

/-- `list.map((x, i) => f i x)` starting at index `i`. -/
def mapIdxFrom {α β : Type} (i : ℕ) (f : ℕ → α → β) : List α → List β
  | [] => []
  | a :: as => f i a :: mapIdxFrom (i + 1) f as

def strFormativeTitle : String := "[0-17] - Formative Years"

def strFormativeSummary : String := "Early development and education period."

def strFormativeWorldview : String := "Values and interests begin to form."

def strFormativeTurning : String := "Early interests emerge"

def strBuilderTitle : String := "[18-29] - Early Builder"

def strBuilderSummary : String := "Hands-on execution and identity formation through work."

def strBuilderWorldview : String := "Pragmatic and experimental mindset strengthens."

def strBuilderTurningA : String := "First major role"

def strBuilderTurningB : String := "Early public visibility"

def strInstTitle : String := "[30-45] - Institutional Influence"

def strInstSummary : String := "Leadership and broad strategic influence expand."

def strInstWorldview : String := "Long-horizon decision-making dominates."

def strInstTurningA : String := "Leadership transition"

def strInstTurningB : String := "Broader societal influence"

def strPresent : String := "present"

/-- The fixed three-stage fallback ladder (pipeline.ts:907-944), as the raw
drafts it is fed to `normalizeStageDraft` as (all fields present and
well-formed). -/
def fallbackLadder : List RawStageDraft :=
  [ ⟨some 0, some strFormativeTitle.data, some 0, some 17,
     some strUnknown.data, some strUnknown.data,
     some strFormativeSummary.data, some strFormativeWorldview.data,
     some [some strFormativeTurning.data], some (52 / 100)⟩,
    ⟨some 1, some strBuilderTitle.data, some 18, some 29,
     some strUnknown.data, some strUnknown.data,
     some strBuilderSummary.data, some strBuilderWorldview.data,
     some [some strBuilderTurningA.data, some strBuilderTurningB.data],
     some (49 / 100)⟩,
    ⟨some 2, some strInstTitle.data, some 30, some 45,
     some strUnknown.data, some strPresent.data,
     some strInstSummary.data, some strInstWorldview.data,
     some [some strInstTurningA.data, some strInstTurningB.data],
     some (48 / 100)⟩ ]

/-- The draft pipeline of the stage phase (pipeline.ts:905-946): keep at most
7 parsed drafts, substitute the fallback ladder when fewer than 3, then
normalize each draft with its index. -/
def segmentationDrafts (parsedStages : List RawStageDraft) : List StageDraft :=
  let drafts0 := parsedStages.take 7
  let drafts1 := if drafts0.length < 3 then fallbackLadder else drafts0
  mapIdxFrom 0 (fun i d => normalizeStageDraft d i) drafts1

/-- The stage table after one run of era segmentation
(pipeline.ts:905-951). -/
def eraSegmentation (personId now : ℕ) (parsedStages : List RawStageDraft)
    (stages : List StageRow) : List StageRow :=
  replaceStages personId now (segmentationDrafts parsedStages) stages

/-- One element of the embeddings response `data` array (llm.ts:100-102). -/
structure EmbeddingItem where
  embedding : List ℚ
  index : ℕ
deriving DecidableEq

/-- The comparator `(a, b) => a.index - b.index` (llm.ts:105). -/
def byIndexLE (a b : EmbeddingItem) : Bool :=
  decide (a.index ≤ b.index)

/-- `embedTextBatch` (llm.ts:77-108) with the provider's response `data`
array as an input: re-sort by the explicit `index` field and project the
embeddings. -/
def embedTextBatch (texts : List (List Char)) (respData : List EmbeddingItem) :
    List (List ℚ) :=
  if texts.length = 0 then []
  else (respData.mergeSort byIndexLE).map (fun d => d.embedding)

/-- The pairing loop of the embed phase (pipeline.ts:1168-1176): chunk `j` of
a batch is inserted with `embeddings[j] ?? []`. -/
def insertChunkPairs (texts : List (List Char)) (embeddings : List (List ℚ)) :
    List (List Char × List ℚ) :=
  (List.range texts.length).map (fun j => (texts.getD j [], embeddings.getD j []))

/-- `Math.round(a / b)` for naturals with `0 < b`: round half up is
`⌊(2a + b) / (2b)⌋`. -/
def jsRound (a b : ℕ) : ℕ :=
  (2 * a + b) / (2 * b)

/-- The embed phase per-source progress value
`Math.min(99, Math.round((p / (p + 5)) * 100))` (pipeline.ts:1185). -/
def embedRunningProgress (p : ℕ) : ℕ :=
  min 99 (jsRound (p * 100) (p + 5))

/-- The per-source progress writes of the embed loop (pipeline.ts:1150-1187):
`p` counts processed sources (including empty ones); a write happens only for
a source that produced at least one chunk. -/
def embedRunningWrites : ℕ → List ℕ → List ℕ
  | _, [] => []
  | p, c :: rest =>
      (if 0 < c then [embedRunningProgress (p + 1)] else []) ++
        embedRunningWrites (p + 1) rest

/-- All progress values written to the embed job during one run, in order
(pipeline.ts:1118-1123, 1181-1186, 1192-1197): the initial running write of
10, the per-source writes, and the done write `embedded > 0 ? 100 : 0`.
`chunkCounts` gives the number of chunks each processed source yields. -/
def embedPhaseWrites (chunkCounts : List ℕ) : List ℕ :=
  10 :: (embedRunningWrites 0 chunkCounts ++
    [if chunkCounts.any (fun c => decide (0 < c)) then 100 else 0])

/-- All progress values written to the extract job during one run over `n`
sources (pipeline.ts:819-858): 10, then
`Math.round((completed / max(n,1)) * 100)` per source, then 100. -/
def extractPhaseWrites (n : ℕ) : List ℕ :=
  10 :: (((List.range n).map (fun k => jsRound ((k + 1) * 100) (max n 1))) ++ [100])

/-- All progress values written to the stage job during one run over `n`
stages (pipeline.ts:860-865, 1002-1007, 1103-1116): 10, 70, then
`70 + Math.round(((si + 1) / n) * 30)` per stage, then 100. -/
def stagePhaseWrites (n : ℕ) : List ℕ :=
  10 :: 70 :: (((List.range n).map (fun si => 70 + jsRound ((si + 1) * 30) n)) ++ [100])

/-- All progress values written to the discover job during one run
(pipeline.ts:730-817). -/
def discoverPhaseWrites : List ℕ := [5, 30, 60, 100]

/-- All progress values written to the publish job during one run
(pipeline.ts:1199-1228). -/
def publishPhaseWrites : List ℕ := [20, 100]

inductive PersonStatus where
  | pending
  | processing
  | ready
  | failed
deriving DecidableEq

inductive JobPhase where
  | discover
  | extract
  | stage
  | embed
  | publish
deriving DecidableEq

inductive JobStatus where
  | queued
  | running
  | done
  | failed
deriving DecidableEq

/-- A row of the `jobs` table (schema.ts). -/
structure JobRow where
  id : ℕ
  personId : ℕ
  phase : JobPhase
  status : JobStatus
  progress : ℕ
  error : Option (List Char)
  startedAt : Option ℕ
  finishedAt : Option ℕ
  createdAt : ℕ
deriving DecidableEq

/-- A row of the `persons` table (the fields the orchestrator touches). -/
structure PersonRow where
  id : ℕ
  status : PersonStatus
  createdAt : ℕ
  updatedAt : ℕ
deriving DecidableEq

/-- The slice of the store the failure path touches. -/
structure PipelineStore where
  persons : List PersonRow
  jobs : List JobRow
deriving DecidableEq

/-- `markPersonStatus` (pipeline.ts:1374-1385). -/
def markPersonStatus (personId : ℕ) (st : PersonStatus) (now : ℕ)
    (s : PipelineStore) : PipelineStore :=
  { s with persons := s.persons.map (fun p =>
      if p.id = personId then { p with status := st, updatedAt := now } else p) }

/-- `markLatestRunningJobFailed` (pipeline.ts:1778-1796): collect the
person's jobs, `find` the first one with status `running`, and patch it to
`failed` with the message; do nothing when none is running. -/
def markLatestRunningJobFailed (personId : ℕ) (message : List Char) (now : ℕ)
    (s : PipelineStore) : PipelineStore :=
  match (s.jobs.filter (fun j => j.personId == personId)).find?
      (fun j => j.status == JobStatus.running) with
  | none => s
  | some r =>
      { s with jobs := s.jobs.map (fun j =>
          if j.id = r.id then
            { j with status := JobStatus.failed, error := some message,
                     finishedAt := some now }
          else j) }

/-- A JS throwable: an `Error` object carrying a message (and an opaque
payload standing for everything else the object carries), or a non-`Error`
value. -/
inductive JsError where
  | errorObj (message : List Char) (payload : ℕ)
  | nonError (payload : List Char)
deriving DecidableEq

def strUnknownFailure : String := "Unknown ingestion failure"

/-- `error instanceof Error ? error.message : "Unknown ingestion failure"`
(pipeline.ts:1243). -/
def ingestionFailureMessage : JsError → List Char
  | .errorObj m _ => m
  | .nonError _ => strUnknownFailure.data

/-- The catch block of `runIngestion` (pipeline.ts:1236-1246), which every
phase exception reaches: mark the person failed, mark the first running job
failed with the captured message, and re-throw the same error (the second
component of the result). -/
def runIngestionCatch (personId : ℕ) (err : JsError) (now : ℕ)
    (s : PipelineStore) : PipelineStore × JsError :=
  (markLatestRunningJobFailed personId (ingestionFailureMessage err) now
     (markPersonStatus personId PersonStatus.failed now s),
   err)

/-- A row of the `stageSourceLinks` table (schema.ts). -/
structure StageSourceLink where
  stageId : ℕ
  sourceId : ℕ
  relevance : ℚ
  rationale : List Char
deriving DecidableEq

/-- `linkSourceToStage` (pipeline.ts:1587-1611): delete every existing link
of the source, then insert the new one. -/
def linkSourceToStage (stageId sourceId : ℕ) (relevance : ℚ)
    (rationale : List Char) (links : List StageSourceLink) : List StageSourceLink :=
  (links.filter (fun l => l.sourceId != sourceId)) ++
    [⟨stageId, sourceId, relevance, rationale⟩]

inductive SourceKind where
  | article
  | video
  | post
  | interview
  | other
deriving DecidableEq

/-- An incoming source of `addSources` (pipeline.ts:1497-1512). -/
structure CandidateSource where
  url : List Char
  title : List Char
  kind : SourceKind
  publishedAt : Option (List Char)
  snippet : Option (List Char)
deriving DecidableEq

/-- A row of the `sources` table, with the metadata JSON blob split into its
two fields. -/
structure SourceRow where
  personId : ℕ
  url : List Char
  title : List Char
  kind : SourceKind
  publishedAt : Option (List Char)
  metaSnippet : List Char
  metaDeepResearch : Bool
  qualityScore : ℚ
  createdAt : ℕ
deriving DecidableEq

/-- JS truthiness of `source.snippet` (an optional string): an absent or
empty string is falsy. -/
def snippetTruthy (s : Option (List Char)) : Bool :=
  match s with
  | some t => !t.isEmpty
  | none => false

/-- The insert of `addSources` (pipeline.ts:1523-1533). -/
def deepSourceRow (personId now : ℕ) (s : CandidateSource) : SourceRow :=
  ⟨personId, s.url, s.title, s.kind, s.publishedAt, s.snippet.getD [], true,
   if snippetTruthy s.snippet then 7 / 10 else 45 / 100, now⟩

/-- `addSources` (pipeline.ts:1495-1536): snapshot the person's existing
URLs, then insert every incoming source whose URL is not in that snapshot
(the snapshot is not updated as the loop inserts). -/
def addSources (personId now : ℕ) (incoming : List CandidateSource)
    (store : List SourceRow) : List SourceRow :=
  let existingUrls := (store.filter (fun r => r.personId == personId)).map (fun r => r.url)
  store ++ ((incoming.filter (fun s => !(existingUrls.contains s.url))).map
    (deepSourceRow personId now))

/-- A row carrying just an id and its person, enough for the cascade over
`chunks` / `stages` / `sources` / `jobs`. -/
structure ChildRow where
  id : ℕ
  personId : ℕ
deriving DecidableEq

/-- A `timelineCards` row: id and owning stage. -/
structure CardRow where
  id : ℕ
  stageId : ℕ
deriving DecidableEq

/-- A `stageSourceLinks` row as seen by the cascade. -/
structure LinkRow where
  id : ℕ
  stageId : ℕ
  sourceId : ℕ
deriving DecidableEq

/-- A `chatSessions` row; the list holding these is kept in
`by_person_stage` index order. -/
structure SessionRow where
  id : ℕ
  personId : ℕ
  stageId : ℕ
deriving DecidableEq

/-- A `chatMessages` row. -/
structure MessageRow where
  id : ℕ
  sessionId : ℕ
deriving DecidableEq

/-- The tables `deletePerson` cascades over (persons.ts:109-143). -/
structure CascadeStore where
  persons : List ℕ
  chatMessages : List MessageRow
  chatSessions : List SessionRow
  timelineCards : List CardRow
  stageSourceLinks : List LinkRow
  chunks : List ChildRow
  stages : List ChildRow
  sources : List ChildRow
  jobs : List ChildRow
deriving DecidableEq

/-- `_deletePersonBatch` for `chatMessages` (persons.ts:59-72): `take(1)` of
the person's sessions, then delete up to `limit` messages of that single
session; `hasMore` is `messages.length >= limit`. -/
def deleteBatchChatMessages (personId limit : ℕ) (s : CascadeStore) :
    CascadeStore × Bool :=
  match (s.chatSessions.filter (fun r => r.personId == personId)).head? with
  | none => (s, false)
  | some sess =>
      let msgs := (s.chatMessages.filter (fun m => m.sessionId == sess.id)).take limit
      ({ s with chatMessages :=
          s.chatMessages.filter (fun m => !(msgs.any (fun d => d.id == m.id))) },
       decide (limit ≤ msgs.length))

/-- `_deletePersonBatch` for `chatSessions` (persons.ts:74-81). -/
def deleteBatchChatSessions (personId limit : ℕ) (s : CascadeStore) :
    CascadeStore × Bool :=
  let rows := (s.chatSessions.filter (fun r => r.personId == personId)).take limit
  ({ s with chatSessions :=
      s.chatSessions.filter (fun r => !(rows.any (fun d => d.id == r.id))) },
   decide (limit ≤ rows.length))

/-- `_deletePersonBatch` for `timelineCards` (persons.ts:83-97): `take(1)` of
the person's stages, then delete up to `limit` cards of that single stage. -/
def deleteBatchTimelineCards (personId limit : ℕ) (s : CascadeStore) :
    CascadeStore × Bool :=
  match (s.stages.filter (fun r => r.personId == personId)).head? with
  | none => (s, false)
  | some st =>
      let rows := (s.timelineCards.filter (fun c => c.stageId == st.id)).take limit
      ({ s with timelineCards :=
          s.timelineCards.filter (fun c => !(rows.any (fun d => d.id == c.id))) },
       decide (limit ≤ rows.length))

/-- `_deletePersonBatch` for `stageSourceLinks` (persons.ts:83-97), same
first-stage-only shape as the card branch. -/
def deleteBatchStageSourceLinks (personId limit : ℕ) (s : CascadeStore) :
    CascadeStore × Bool :=
  match (s.stages.filter (fun r => r.personId == personId)).head? with
  | none => (s, false)
  | some st =>
      let rows := (s.stageSourceLinks.filter (fun c => c.stageId == st.id)).take limit
      ({ s with stageSourceLinks :=
          s.stageSourceLinks.filter (fun c => !(rows.any (fun d => d.id == c.id))) },
       decide (limit ≤ rows.length))

/-- `_deletePersonBatch` for `chunks` (persons.ts:99-106). -/
def deleteBatchChunks (personId limit : ℕ) (s : CascadeStore) :
    CascadeStore × Bool :=
  let rows := (s.chunks.filter (fun r => r.personId == personId)).take limit
  ({ s with chunks := s.chunks.filter (fun r => !(rows.any (fun d => d.id == r.id))) },
   decide (limit ≤ rows.length))

/-- `_deletePersonBatch` for `stages` (persons.ts:99-106). -/
def deleteBatchStages (personId limit : ℕ) (s : CascadeStore) :
    CascadeStore × Bool :=
  let rows := (s.stages.filter (fun r => r.personId == personId)).take limit
  ({ s with stages := s.stages.filter (fun r => !(rows.any (fun d => d.id == r.id))) },
   decide (limit ≤ rows.length))

/-- `_deletePersonBatch` for `sources` (persons.ts:99-106). -/
def deleteBatchSources (personId limit : ℕ) (s : CascadeStore) :
    CascadeStore × Bool :=
  let rows := (s.sources.filter (fun r => r.personId == personId)).take limit
  ({ s with sources := s.sources.filter (fun r => !(rows.any (fun d => d.id == r.id))) },
   decide (limit ≤ rows.length))

/-- `_deletePersonBatch` for `jobs` (persons.ts:99-106). -/
def deleteBatchJobs (personId limit : ℕ) (s : CascadeStore) :
    CascadeStore × Bool :=
  let rows := (s.jobs.filter (fun r => r.personId == personId)).take limit
  ({ s with jobs := s.jobs.filter (fun r => !(rows.any (fun d => d.id == r.id))) },
   decide (limit ≤ rows.length))

/-- The `while (hasMore)` loop of `deletePerson` (persons.ts:126-133), with
fuel; on the inputs of interest the loop stops by itself before the fuel
runs out. -/
def runTableDeletion : ℕ → (CascadeStore → CascadeStore × Bool) → CascadeStore → CascadeStore
  | 0, _, s => s
  | fuel + 1, step, s =>
      let r := step s
      if r.2 then runTableDeletion fuel step r.1 else r.1

/-- `_deletePersonDoc` (persons.ts:145-151). -/
def deletePersonDoc (personId : ℕ) (s : CascadeStore) : CascadeStore :=
  { s with persons := s.persons.filter (fun q => q != personId) }

/-- `deletePerson` (persons.ts:109-143): run the batch loop for each table in
the fixed order, with batch size 200, then delete the person document. -/
def deletePerson (fuel personId : ℕ) (s : CascadeStore) : CascadeStore :=
  let s1 := runTableDeletion fuel (deleteBatchChatMessages personId 200) s
  let s2 := runTableDeletion fuel (deleteBatchChatSessions personId 200) s1
  let s3 := runTableDeletion fuel (deleteBatchTimelineCards personId 200) s2
  let s4 := runTableDeletion fuel (deleteBatchStageSourceLinks personId 200) s3
  let s5 := runTableDeletion fuel (deleteBatchChunks personId 200) s4
  let s6 := runTableDeletion fuel (deleteBatchStages personId 200) s5
  let s7 := runTableDeletion fuel (deleteBatchSources personId 200) s6
  let s8 := runTableDeletion fuel (deleteBatchJobs personId 200) s7
  deletePersonDoc personId s8

/-- Boolean check that a list of naturals is non-decreasing; used to decide
concrete monotonicity facts. -/
def isNonDecr : List ℕ → Bool
  | [] => true
  | [_] => true
  | a :: b :: t => decide (a ≤ b) && isNonDecr (b :: t)

/-- Store exhibiting the cascade bug: person 1 has two chat sessions (in
`by_person_stage` index order), the first with no messages and the second
with one message. -/
def cascadeFailingStore : CascadeStore :=
  ⟨[1], [⟨500, 101⟩], [⟨100, 1, 1⟩, ⟨101, 1, 2⟩], [], [], [], [], [], []⟩

def c3Counts : List ℕ := [2, 0, 3]

/-- Three well-formed LLM drafts whose explicit `order` fields are 5, 7, 9. -/
def c2BadDrafts : List RawStageDraft :=
  [ ⟨some 5, some strFormativeTitle.data, some 5, some 9,
     some strUnknown.data, some strUnknown.data,
     some strFormativeSummary.data, some strFormativeWorldview.data,
     some [some strFormativeTurning.data], some (1 / 2)⟩,
    ⟨some 7, some strBuilderTitle.data, some 10, some 14,
     some strUnknown.data, some strUnknown.data,
     some strBuilderSummary.data, some strBuilderWorldview.data,
     some [some strBuilderTurningA.data], some (1 / 2)⟩,
    ⟨some 9, some strInstTitle.data, some 15, some 19,
     some strUnknown.data, some strUnknown.data,
     some strInstSummary.data, some strInstWorldview.data,
     some [some strInstTurningA.data], some (1 / 2)⟩ ]

/-- Three well-formed LLM drafts whose explicit `order` fields are the
permutation 2, 0, 1 of `0..2`. -/
def c2PermDrafts : List RawStageDraft :=
  [ ⟨some 2, some strFormativeTitle.data, some 5, some 9,
     some strUnknown.data, some strUnknown.data,
     some strFormativeSummary.data, some strFormativeWorldview.data,
     some [some strFormativeTurning.data], some (1 / 2)⟩,
    ⟨some 0, some strBuilderTitle.data, some 10, some 14,
     some strUnknown.data, some strUnknown.data,
     some strBuilderSummary.data, some strBuilderWorldview.data,
     some [some strBuilderTurningA.data], some (1 / 2)⟩,
    ⟨some 1, some strInstTitle.data, some 15, some 19,
     some strUnknown.data, some strUnknown.data,
     some strInstSummary.data, some strInstWorldview.data,
     some [some strInstTurningA.data], some (1 / 2)⟩ ]

def strBoom : String := "boom"

def c4Store : PipelineStore :=
  ⟨[⟨1, PersonStatus.processing, 0, 0⟩],
   [⟨10, 1, JobPhase.discover, JobStatus.done, 100, none, some 1, some 2, 0⟩,
    ⟨11, 1, JobPhase.embed, JobStatus.running, 10, none, some 3, none, 0⟩]⟩

def c4Row : JobRow := ⟨11, 1, JobPhase.embed, JobStatus.running, 10, none, some 3, none, 0⟩

def c4PatchedRow : JobRow :=
  ⟨11, 1, JobPhase.embed, JobStatus.failed, 10, some strBoom.data, some 3, some 5, 0⟩

def c4PatchedPerson : PersonRow := ⟨1, PersonStatus.failed, 0, 5⟩

def c6Query : List ℚ := [1]

def c6AllChunks : List ChunkDoc :=
  [⟨0, [], [], [1]⟩, ⟨1, [], [], [2]⟩, ⟨2, [], [], [3]⟩, ⟨3, [], [], [4]⟩,
   ⟨4, [], [], [5]⟩, ⟨5, [], [], [6]⟩, ⟨6, [], [], [7]⟩, ⟨7, [], [], [8]⟩]

def c7Text : List Char := 'a' :: ' ' :: ' ' :: 'b' :: []

def c7Chunk : List Char := 'a' :: ' ' :: 'b' :: []

def c8Texts : List (List Char) := [['a'], ['b', 'c']]

def c8EmbedOf : List Char → List ℚ := fun t => [(t.length : ℚ)]

def c8Resp : List EmbeddingItem := [⟨[2], 1⟩, ⟨[1], 0⟩]

def c10Store : List SourceRow :=
  [⟨1, ['a'], ['t'], SourceKind.article, none, [], false, 45 / 100, 0⟩]

def c10Incoming : List CandidateSource :=
  [⟨['a'], ['t'], SourceKind.article, none, none⟩,
   ⟨['b'], ['u'], SourceKind.video, none, none⟩,
   ⟨['b'], ['v'], SourceKind.post, none, none⟩]

def c10UrlA : List Char := ['a']

def c10UrlB : List Char := ['b']

/-! Theorems.  Helper lemmas come first, then one theorem per claim (with
its witness or counterexample). -/

theorem isNonDecr_chain : ∀ l : List ℕ, isNonDecr l = true → List.Chain' (· ≤ ·) l := by
  intro l
  induction l with
  | nil => intro _; simp
  | cons a t ih =>
      cases t with
      | nil => intro _; simp
      | cons b t2 =>
          intro h
          rw [isNonDecr, Bool.and_eq_true, decide_eq_true_eq] at h
          rw [List.chain'_cons]
          exact ⟨h.1, ih h.2⟩

theorem isNonDecr_false_not_chain :
    ∀ l : List ℕ, isNonDecr l = false → ¬ List.Chain' (· ≤ ·) l := by
  intro l
  induction l with
  | nil => intro h; simp [isNonDecr] at h
  | cons a t ih =>
      cases t with
      | nil => intro h; simp [isNonDecr] at h
      | cons b t2 =>
          intro h hchain
          rw [List.chain'_cons] at hchain
          rw [isNonDecr, Bool.and_eq_false_iff] at h
          rcases h with h | h
          · rw [decide_eq_false_iff_not] at h
            exact h hchain.1
          · exact ih h hchain.2

theorem nat_div_le_div {a b c d : ℕ} (hb : 0 < b) (hd : 0 < d)
    (h : a * d ≤ c * b) : a / b ≤ c / d := by
  rw [Nat.le_div_iff_mul_le hd]
  have h1 : a / b * b ≤ a := Nat.div_mul_le_self a b
  have h2 : a / b * d * b ≤ c * b := by
    calc a / b * d * b = a / b * b * d := by ring
    _ ≤ a * d := Nat.mul_le_mul h1 (le_refl d)
    _ ≤ c * b := h
  exact Nat.le_of_mul_le_mul_right h2 hb

theorem jsRound_embed_mono {p q : ℕ} (h : p ≤ q) :
    jsRound (p * 100) (p + 5) ≤ jsRound (q * 100) (q + 5) := by
  unfold jsRound
  apply nat_div_le_div (by omega) (by omega)
  nlinarith

theorem embedRunningProgress_mono {p q : ℕ} (h : p ≤ q) :
    embedRunningProgress p ≤ embedRunningProgress q := by
  unfold embedRunningProgress
  exact min_le_min (le_refl 99) (jsRound_embed_mono h)

theorem embedRunningProgress_le_99 (p : ℕ) : embedRunningProgress p ≤ 99 :=
  min_le_left 99 _

theorem embedRunningProgress_ge_17 {p : ℕ} (h : 1 ≤ p) :
    17 ≤ embedRunningProgress p := by
  have h1 : embedRunningProgress 1 = 17 := by decide
  calc (17 : ℕ) = embedRunningProgress 1 := h1.symm
  _ ≤ embedRunningProgress p := embedRunningProgress_mono h

theorem mem_embedRunningWrites :
    ∀ (counts : List ℕ) (p x : ℕ), x ∈ embedRunningWrites p counts →
      embedRunningProgress (p + 1) ≤ x := by
  intro counts
  induction counts with
  | nil => intro p x hx; simp [embedRunningWrites] at hx
  | cons c rest ih =>
      intro p x hx
      rw [embedRunningWrites] at hx
      rcases List.mem_append.1 hx with h1 | h2
      · by_cases hc : 0 < c
        · simp only [hc, if_pos, List.mem_singleton] at h1
          exact h1 ▸ le_refl _
        · simp [hc] at h1
      · exact le_trans (embedRunningProgress_mono (by omega)) (ih (p + 1) x h2)

theorem embedRunningWrites_chain :
    ∀ (counts : List ℕ) (p : ℕ),
      List.Chain' (· ≤ ·) (embedRunningWrites p counts ++ [100]) := by
  intro counts
  induction counts with
  | nil => intro p; simp [embedRunningWrites]
  | cons c rest ih =>
      intro p
      rw [embedRunningWrites]
      by_cases hc : 0 < c
      · simp only [hc, if_pos, List.singleton_append, List.cons_append]
        rw [List.chain'_cons']
        constructor
        · intro y hy
          have hymem : y ∈ embedRunningWrites (p + 1) rest ++ [100] :=
            List.mem_of_mem_head? hy
          rcases List.mem_append.1 hymem with hw | h100
          · exact le_trans (embedRunningProgress_mono (by omega))
              (mem_embedRunningWrites rest (p + 1) y hw)
          · have : y = 100 := by simpa using h100
            subst this
            exact le_trans (embedRunningProgress_le_99 _) (by omega)
        · exact ih (p + 1)
      · simp only [hc, if_neg, List.nil_append, if_false]
        exact ih (p + 1)

theorem embedRunningWrites_ne_nil :
    ∀ (counts : List ℕ) (p : ℕ),
      counts.any (fun c => decide (0 < c)) = true →
      embedRunningWrites p counts ≠ [] := by
  intro counts
  induction counts with
  | nil => intro p h; simp at h
  | cons c rest ih =>
      intro p h
      rw [embedRunningWrites]
      by_cases hc : 0 < c
      · simp [hc]
      · simp only [hc, if_neg, List.nil_append, if_false]
        apply ih
        simp only [List.any_cons, Bool.or_eq_true] at h
        rcases h with h | h
        · exact absurd (of_decide_eq_true h) hc
        · exact h

/-- C1: the claim that `deletePerson` removes every row referencing the
person fails on the code.  In `cascadeFailingStore`, person 1 has two chat
sessions; the message batch helper only ever reads the first session
(`take(1)`) and reports no more work once that session has no messages, so
the second session's message survives the whole cascade while the sessions
and the person document are deleted. -/
theorem c1_deletePerson_leaves_message :
    cascadeFailingStore.chatSessions.contains ⟨101, 1, 2⟩ = true
    ∧ cascadeFailingStore.chatMessages = [⟨500, 101⟩]
    ∧ (deletePerson 3 1 cascadeFailingStore).persons = []
    ∧ (deletePerson 3 1 cascadeFailingStore).chatSessions = []
    ∧ (deletePerson 3 1 cascadeFailingStore).chatMessages = [⟨500, 101⟩] := by
  decide

/-- C5: after any call of `linkSourceToStage` for a source (in particular the
second of two calls with different stages), exactly one link row exists for
that source and it carries the stage, relevance and rationale of the latest
call; every prior link of the source was removed. -/
theorem c5_link_unique_latest :
    ∀ (links : List StageSourceLink) (s1 s2 src : ℕ) (r1 r2 : ℚ)
      (ra1 ra2 : List Char),
      ((linkSourceToStage s2 src r2 ra2 links).filter (fun l => l.sourceId == src)
          = [⟨s2, src, r2, ra2⟩])
      ∧ ((linkSourceToStage s2 src r2 ra2
            (linkSourceToStage s1 src r1 ra1 links)).filter
            (fun l => l.sourceId == src) = [⟨s2, src, r2, ra2⟩]) := by
  have key : ∀ (links : List StageSourceLink) (st src : ℕ) (r : ℚ) (ra : List Char),
      (linkSourceToStage st src r ra links).filter (fun l => l.sourceId == src)
        = [⟨st, src, r, ra⟩] := by
    intro links st src r ra
    rw [linkSourceToStage, List.filter_append]
    have h1 : (links.filter (fun l => l.sourceId != src)).filter
        (fun l => l.sourceId == src) = [] := by
      rw [List.filter_filter]
      apply List.filter_eq_nil_iff.2
      intro a _
      simp only [bne_iff_ne, beq_iff_eq, Bool.and_eq_true, decide_eq_true_eq]
      intro hcontra
      exact hcontra.2 hcontra.1
    rw [h1, List.nil_append]
    simp
  intro links s1 s2 src r1 r2 ra1 ra2
  exact ⟨key links s2 src r2 ra2, key _ s2 src r2 ra2⟩

/-- C3, counterexample: in a run whose embed phase embeds no chunk (for
example, every source extracted to empty text), the progress values written
to the embed job are `10` (initial running write) followed by `0` (the done
write `embedded > 0 ? 100 : 0`), a strictly decreasing sequence. -/
theorem c3_counterexample_embed_drop :
    embedPhaseWrites [] = [10, 0]
    ∧ ¬ List.Chain' (· ≤ ·) (embedPhaseWrites []) :=
  ⟨by decide, isNonDecr_false_not_chain _ (by decide)⟩

/-- C3, amended: within one ingestion run, the progress values written to
each phase's job are monotonically non-decreasing, except for two dips the
code produces: the extract phase needs the person to have at most 10 sources
(with 11 or more, the first per-source write `round(100/n)` is below the
initial 10), and the embed phase needs at least one chunk to be embedded
(with zero chunks the done write is 0, below the initial 10). -/
theorem c3_amended_progress_monotone :
    List.Chain' (· ≤ ·) discoverPhaseWrites
    ∧ (∀ n : ℕ, n ≤ 10 → List.Chain' (· ≤ ·) (extractPhaseWrites n))
    ∧ (∀ n : ℕ, 1 ≤ n → List.Chain' (· ≤ ·) (stagePhaseWrites n))
    ∧ (∀ counts : List ℕ, counts.any (fun c => decide (0 < c)) = true →
        List.Chain' (· ≤ ·) (embedPhaseWrites counts))
    ∧ List.Chain' (· ≤ ·) publishPhaseWrites := by
  refine ⟨isNonDecr_chain _ (by decide), ?_, ?_, ?_, isNonDecr_chain _ (by decide)⟩
  · intro n hn
    interval_cases n <;> exact isNonDecr_chain _ (by decide)
  · intro n hn
    rw [stagePhaseWrites, List.chain'_cons]
    refine ⟨by omega, ?_⟩
    rw [List.chain'_cons']
    constructor
    · intro y hy
      have hymem := List.mem_of_mem_head? hy
      rcases List.mem_append.1 hymem with hmap | h100
      · rcases List.mem_map.1 hmap with ⟨si, _, rfl⟩
        omega
      · have hy100 : y = 100 := by simpa using h100
        omega
    · apply List.Chain'.append
      · apply List.Pairwise.chain'
        rw [List.pairwise_map]
        apply (List.pairwise_lt_range n).imp
        intro a b hab
        have hmono : jsRound ((a + 1) * 30) n ≤ jsRound ((b + 1) * 30) n := by
          unfold jsRound
          apply Nat.div_le_div_right
          omega
        omega
      · simp
      · intro x hx y hy
        have hxmem := List.mem_of_mem_getLast? hx
        rcases List.mem_map.1 hxmem with ⟨si, hsi, rfl⟩
        have hy100 : (100 : ℕ) = y := by simpa using hy
        have hsin : si < n := List.mem_range.1 hsi
        have hb : jsRound ((si + 1) * 30) n ≤ 30 := by
          unfold jsRound
          have h61 : 2 * ((si + 1) * 30) + n ≤ 61 * n := by nlinarith
          calc (2 * ((si + 1) * 30) + n) / (2 * n) ≤ 61 * n / (2 * n) :=
            Nat.div_le_div_right h61
          _ = 30 := by
            rw [show 61 * n = 2 * n * 30 + n by ring]
            rw [Nat.mul_add_div (by omega), Nat.div_eq_of_lt (by omega)]
        omega
  · intro counts h
    rw [embedPhaseWrites, List.chain'_cons']
    constructor
    · intro y hy
      have hymem := List.mem_of_mem_head? hy
      rcases List.mem_append.1 hymem with hw | hend
      · have h17 := mem_embedRunningWrites counts 0 y hw
        have h17' : (17 : ℕ) ≤ y :=
          le_trans (embedRunningProgress_ge_17 (by omega)) h17
        omega
      · have hy' : y = (if counts.any (fun c => decide (0 < c)) then (100 : ℕ) else 0) :=
          List.mem_singleton.1 hend
        rw [h] at hy'
        simp at hy'
        omega
    · have hif : (if counts.any (fun c => decide (0 < c)) then (100 : ℕ) else 0) = 100 := by
        rw [h]
        simp
      rw [hif]
      exact embedRunningWrites_chain counts 0

/-- C3, witness: concrete monotone runs for the extract phase with 5
sources, the stage phase with 3 stages, and the embed phase where the
sources yield 2, 0 and 3 chunks. -/
theorem c3_monotone_witness :
    List.Chain' (· ≤ ·) (extractPhaseWrites 5)
    ∧ List.Chain' (· ≤ ·) (stagePhaseWrites 3)
    ∧ List.Chain' (· ≤ ·) (embedPhaseWrites c3Counts) :=
  ⟨c3_amended_progress_monotone.2.1 5 (by decide),
   c3_amended_progress_monotone.2.2.1 3 (by decide),
   c3_amended_progress_monotone.2.2.2.1 c3Counts (by decide)⟩

theorem markPersonStatus_jobs (pid : ℕ) (st : PersonStatus) (now : ℕ)
    (s : PipelineStore) : (markPersonStatus pid st now s).jobs = s.jobs := rfl

theorem markLatestRunningJobFailed_jobs (pid : ℕ) (msg : List Char) (now : ℕ)
    (s : PipelineStore) (j : JobRow)
    (hfind : (s.jobs.filter (fun jb => jb.personId == pid)).find?
        (fun jb => jb.status == JobStatus.running) = some j) :
    (markLatestRunningJobFailed pid msg now s).jobs =
      s.jobs.map (fun jb =>
        if jb.id = j.id then
          { jb with status := JobStatus.failed, error := some msg,
                    finishedAt := some now }
        else jb) := by
  unfold markLatestRunningJobFailed
  rw [hfind]

theorem markLatestRunningJobFailed_persons (pid : ℕ) (msg : List Char)
    (now : ℕ) (s : PipelineStore) :
    (markLatestRunningJobFailed pid msg now s).persons = s.persons := by
  unfold markLatestRunningJobFailed
  split
  · rfl
  · rfl

/-- C4: the catch block of `runIngestion`, reached by every exception thrown
during any phase, marks the person failed, marks the first currently-running
job of the person failed with the exception's message (for a thrown `Error`
object), and re-throws the very same exception unchanged. -/
theorem c4_failure_marks_and_rethrows :
    ∀ (pid : ℕ) (m : List Char) (payload now : ℕ) (s : PipelineStore)
      (j : JobRow),
      (s.jobs.filter (fun jb => jb.personId == pid)).find?
          (fun jb => jb.status == JobStatus.running) = some j →
      (∀ p ∈ (runIngestionCatch pid (JsError.errorObj m payload) now s).1.persons,
          p.id = pid → p.status = PersonStatus.failed)
      ∧ (∀ jb ∈ (runIngestionCatch pid (JsError.errorObj m payload) now s).1.jobs,
          jb.id = j.id →
            jb.status = JobStatus.failed ∧ jb.error = some m
              ∧ jb.finishedAt = some now)
      ∧ (runIngestionCatch pid (JsError.errorObj m payload) now s).2
          = JsError.errorObj m payload := by
  intro pid m payload now s j hfind
  have hjobs0 : (markPersonStatus pid PersonStatus.failed now s).jobs = s.jobs := rfl
  refine ⟨?_, ?_, rfl⟩
  · intro p hp hpid
    have hpersons :
        (runIngestionCatch pid (JsError.errorObj m payload) now s).1.persons =
          s.persons.map (fun q =>
            if q.id = pid then { q with status := PersonStatus.failed, updatedAt := now }
            else q) := by
      show (markLatestRunningJobFailed pid _ now _).persons = _
      rw [markLatestRunningJobFailed_persons]
      rfl
    rw [hpersons] at hp
    rcases List.mem_map.1 hp with ⟨q, _, rfl⟩
    by_cases hq : q.id = pid
    · simp [hq]
    · rw [if_neg hq] at hpid
      exact absurd hpid hq
  · intro jb hjb hid
    have hjobs :
        (runIngestionCatch pid (JsError.errorObj m payload) now s).1.jobs =
          s.jobs.map (fun x =>
            if x.id = j.id then
              { x with status := JobStatus.failed, error := some m,
                       finishedAt := some now }
            else x) := by
      show (markLatestRunningJobFailed pid _ now _).jobs = _
      rw [markLatestRunningJobFailed_jobs _ _ _ _ j (by rw [hjobs0]; exact hfind)]
      rw [hjobs0]
      rfl
    rw [hjobs] at hjb
    rcases List.mem_map.1 hjb with ⟨x, _, rfl⟩
    by_cases hx : x.id = j.id
    · simp [hx]
    · rw [if_neg hx] at hid
      exact absurd hid hx

/-- C4, witness: in a store where person 1 is processing and its embed job
(id 11) is running, the catch handler for `new Error("boom")` yields the
patched failed job, the failed person, and re-throws the same error. -/
theorem c4_failure_witness :
    (c4PatchedPerson.status = PersonStatus.failed)
    ∧ (c4PatchedRow.status = JobStatus.failed
        ∧ c4PatchedRow.error = some strBoom.data
        ∧ c4PatchedRow.finishedAt = some 5)
    ∧ (runIngestionCatch 1 (JsError.errorObj strBoom.data 7) 5 c4Store).2
        = JsError.errorObj strBoom.data 7 :=
  ⟨(c4_failure_marks_and_rethrows 1 strBoom.data 7 5 c4Store c4Row (by decide)).1
      c4PatchedPerson (by decide) (by decide),
   (c4_failure_marks_and_rethrows 1 strBoom.data 7 5 c4Store c4Row (by decide)).2.1
      c4PatchedRow (by decide) (by decide),
   (c4_failure_marks_and_rethrows 1 strBoom.data 7 5 c4Store c4Row (by decide)).2.2⟩

theorem sliceWindowsAux_join (m : ℕ) (hm : m ≠ 0) :
    ∀ (fuel : ℕ) (s : List Char), s.length ≤ fuel →
      (sliceWindowsAux m fuel s).flatten = s := by
  intro fuel
  induction fuel with
  | zero =>
      intro s hs
      have hnil : s = [] := List.eq_nil_of_length_eq_zero (Nat.le_zero.1 hs)
      subst hnil
      simp [sliceWindowsAux]
  | succ n ih =>
      intro s hs
      cases s with
      | nil => simp [sliceWindowsAux]
      | cons a t =>
          simp only [sliceWindowsAux, List.flatten_cons]
          rw [ih ((a :: t).drop m)
            (by simp only [List.length_drop, List.length_cons] at hs ⊢; omega)]
          exact List.take_append_drop m (a :: t)

theorem sliceWindowsAux_mem (m : ℕ) (hm : m ≠ 0) :
    ∀ (fuel : ℕ) (s c : List Char), c ∈ sliceWindowsAux m fuel s →
      c ≠ [] ∧ c.length ≤ m := by
  intro fuel
  induction fuel with
  | zero => intro s c hc; simp [sliceWindowsAux] at hc
  | succ n ih =>
      intro s c hc
      cases s with
      | nil => simp [sliceWindowsAux] at hc
      | cons a t =>
          simp only [sliceWindowsAux, List.mem_cons] at hc
          rcases hc with rfl | hc
          · constructor
            · intro hnil
              rw [List.take_eq_nil_iff] at hnil
              rcases hnil with h | h
              · exact hm h
              · simp at h
            · exact List.length_take_le m (a :: t)
          · exact ih _ c hc

/-- C7: concatenating `splitChunks(T)` (default `maxChars = 1200`) restores
the normalized text (sanitized, whitespace-collapsed, trimmed) with nothing
lost or duplicated; every chunk is non-empty of length at most 1200; and the
empty text yields no chunks. -/
theorem c7_splitChunks_spec :
    ∀ t : List Char,
      ((splitChunksDefault t).flatten = normalizeText t)
      ∧ (∀ c ∈ splitChunksDefault t, c ≠ [] ∧ c.length ≤ 1200)
      ∧ splitChunksDefault [] = [] := by
  intro t
  refine ⟨?_, ?_, rfl⟩
  · rw [splitChunksDefault]
    simp only [splitChunks]
    by_cases h : normalizeText t = []
    · simp [h]
    · rw [if_neg h, sliceWindows, if_neg (by decide : ¬((1200 : ℕ) = 0))]
      exact sliceWindowsAux_join 1200 (by decide) _ _ (le_refl _)
  · intro c hc
    rw [splitChunksDefault] at hc
    simp only [splitChunks] at hc
    by_cases h : normalizeText t = []
    · simp [h] at hc
    · rw [if_neg h, sliceWindows, if_neg (by decide : ¬((1200 : ℕ) = 0))] at hc
      exact sliceWindowsAux_mem 1200 (by decide) _ _ c hc

/-- C7, witness: on the text `"a  b"` the first chunk is `"a b"`, non-empty
and within the bound, and concatenation restores the normalized text. -/
theorem c7_splitChunks_witness :
    (c7Chunk ≠ [] ∧ c7Chunk.length ≤ 1200)
    ∧ (splitChunksDefault c7Text).flatten = normalizeText c7Text :=
  ⟨(c7_splitChunks_spec c7Text).2.1 c7Chunk (by decide),
   (c7_splitChunks_spec c7Text).1⟩

theorem dotProd_comm : ∀ a b : List ℚ, dotProd a b = dotProd b a := by
  intro a
  induction a with
  | nil => intro b; cases b <;> simp [dotProd]
  | cons x xs ih =>
      intro b
      cases b with
      | nil => simp [dotProd]
      | cons y ys => simp [dotProd, ih ys, mul_comm]

theorem dotProd_self_nonneg : ∀ a : List ℚ, 0 ≤ dotProd a a := by
  intro a
  induction a with
  | nil => simp [dotProd]
  | cons x xs ih =>
      simp only [dotProd]
      exact add_nonneg (mul_self_nonneg x) ih

theorem dotProd_self_zero : ∀ a : List ℚ, (∀ x ∈ a, x = 0) → dotProd a a = 0 := by
  intro a
  induction a with
  | nil => intro _; simp [dotProd]
  | cons x xs ih =>
      intro h
      simp only [dotProd]
      rw [h x (List.mem_cons_self x xs), ih (fun y hy => h y (List.mem_cons_of_mem x hy))]
      ring

theorem dotProd_self_pos : ∀ a : List ℚ, (∃ x ∈ a, x ≠ 0) → 0 < dotProd a a := by
  intro a
  induction a with
  | nil => intro h; simp at h
  | cons x xs ih =>
      intro h
      rcases h with ⟨y, hy, hy0⟩
      simp only [dotProd]
      rcases List.mem_cons.1 hy with rfl | hmem
      · exact add_pos_of_pos_of_nonneg (mul_self_pos.2 hy0) (dotProd_self_nonneg xs)
      · exact add_pos_of_nonneg_of_pos (mul_self_nonneg x) (ih ⟨y, hmem, hy0⟩)

/-- C9: `cosineSimilarity` is symmetric; it returns 0 for mismatched
lengths, for an empty vector, and for an all-zero vector on either side
(never dividing by zero); and it returns 1 on a non-empty, not-all-zero
vector paired with itself. -/
theorem c9_cosineSimilarity_spec :
    ∀ a b : List ℚ,
      (cosineSimilarity a b = cosineSimilarity b a)
      ∧ (a.length ≠ b.length → cosineSimilarity a b = 0)
      ∧ (a = [] → cosineSimilarity a b = 0)
      ∧ ((∀ x ∈ a, x = 0) → cosineSimilarity a b = 0)
      ∧ ((∀ x ∈ b, x = 0) → cosineSimilarity a b = 0)
      ∧ (a ≠ [] → (∃ x ∈ a, x ≠ 0) → cosineSimilarity a a = 1) := by
  have hsym : ∀ u v : List ℚ, cosineSimilarity u v = cosineSimilarity v u := by
    intro u v
    unfold cosineSimilarity
    split_ifs <;>
      first
        | rfl
        | omega
        | tauto
        | rw [dotProd_comm u v, mul_comm]
  have hzero : ∀ u v : List ℚ, (∀ x ∈ u, x = 0) → cosineSimilarity u v = 0 := by
    intro u v hu
    unfold cosineSimilarity
    by_cases h1 : u.length = 0 ∨ v.length = 0 ∨ u.length ≠ v.length
    · rw [if_pos h1]
    · rw [if_neg h1, if_pos (Or.inl (dotProd_self_zero u hu))]
  intro a b
  refine ⟨hsym a b, ?_, ?_, hzero a b, ?_, ?_⟩
  · intro h
    unfold cosineSimilarity
    rw [if_pos (Or.inr (Or.inr h))]
  · intro h
    unfold cosineSimilarity
    rw [if_pos (Or.inl (by simp [h]))]
  · intro hb
    rw [hsym a b]
    exact hzero b a hb
  · intro hne hex
    have hlen : a.length ≠ 0 := by simpa using hne
    have hpos : 0 < dotProd a a := dotProd_self_pos a hex
    unfold cosineSimilarity
    rw [if_neg (by omega), if_neg (by simp [hpos.ne'])]
    rw [Real.mul_self_sqrt (by exact_mod_cast dotProd_self_nonneg a)]
    apply div_self
    exact_mod_cast hpos.ne'

/-- C9, witness: concrete evaluations — mismatched lengths give 0, an
all-zero vector gives 0, and a non-zero vector against itself gives 1. -/
theorem c9_cosineSimilarity_witness :
    cosineSimilarity [1] [1, 2] = 0
    ∧ cosineSimilarity [0, 0] [1, 2] = 0
    ∧ cosineSimilarity [1, 2] [1, 2] = 1 :=
  ⟨(c9_cosineSimilarity_spec [1] [1, 2]).2.1 (by decide),
   (c9_cosineSimilarity_spec [0, 0] [1, 2]).2.2.2.1 (by decide),
   (c9_cosineSimilarity_spec [1, 2] [1, 2]).2.2.2.2.2 (by decide) (by decide)⟩

/-- C10: `addSources` keeps the pre-existing rows untouched (they stay as
the unchanged prefix); an incoming source whose URL is already stored for
the person inserts nothing; and for a URL not yet stored, one row is
inserted per incoming entry carrying it — a batch with an internal duplicate
URL inserts both, since the dedup snapshot is taken before the loop. -/
theorem c10_addSources_spec :
    ∀ (pid now : ℕ) (incoming : List CandidateSource) (store : List SourceRow),
      ((addSources pid now incoming store).take store.length = store)
      ∧ (∀ u : List Char,
          ((store.filter (fun r => r.personId == pid)).map (fun r => r.url)).contains u
              = true →
          (addSources pid now incoming store).filter (fun r => r.url == u)
            = store.filter (fun r => r.url == u))
      ∧ (∀ u : List Char,
          ((store.filter (fun r => r.personId == pid)).map (fun r => r.url)).contains u
              = false →
          ((addSources pid now incoming store).filter (fun r => r.url == u)).length
            = (store.filter (fun r => r.url == u)).length
              + (incoming.filter (fun s => s.url == u)).length) := by
  intro pid now incoming store
  refine ⟨?_, ?_, ?_⟩
  · simp only [addSources]
    exact List.take_left store _
  · intro u hu
    simp only [addSources, List.filter_append]
    have happ :
        ((incoming.filter (fun s =>
            !(((store.filter (fun r => r.personId == pid)).map
                (fun r => r.url)).contains s.url))).map
          (deepSourceRow pid now)).filter (fun r => r.url == u) = [] := by
      rw [List.filter_map]
      apply List.map_eq_nil_iff.2
      apply List.filter_eq_nil_iff.2
      intro s hs
      have hpass := (List.mem_filter.1 hs).2
      have hcont : ((store.filter (fun r => r.personId == pid)).map
          (fun r => r.url)).contains s.url = false := by
        cases hc : ((store.filter (fun r => r.personId == pid)).map
            (fun r => r.url)).contains s.url with
        | false => rfl
        | true => rw [hc] at hpass; exact absurd hpass (by decide)
      simp only [Function.comp_apply, beq_iff_eq]
      intro hurl
      have hsurl : (deepSourceRow pid now s).url = s.url := rfl
      rw [hsurl] at hurl
      rw [hurl] at hcont
      rw [hcont] at hu
      exact Bool.false_ne_true hu
    rw [happ, List.append_nil]
  · intro u hu
    simp only [addSources, List.filter_append, List.length_append]
    congr 1
    rw [List.filter_map, List.length_map, List.filter_filter]
    apply congrArg List.length
    apply List.filter_congr
    intro s _
    show ((s.url == u) &&
        !(((store.filter (fun r => r.personId == pid)).map
            (fun r => r.url)).contains s.url)) = (s.url == u)
    by_cases hsu : s.url = u
    · have hbeq : (s.url == u) = true := by simp [hsu]
      have hpass : (!(((store.filter (fun r => r.personId == pid)).map
          (fun r => r.url)).contains s.url)) = true := by
        rw [hsu, hu]
        rfl
      rw [hbeq, hpass]
      rfl
    · have hbeq : (s.url == u) = false := by simp [hsu]
      rw [hbeq]
      simp

/-- C10, witness: with one stored source of URL `a` and an incoming batch
`[a, b, b]`, the `a` entry is skipped and both `b` entries are inserted. -/
theorem c10_addSources_witness :
    ((addSources 1 5 c10Incoming c10Store).filter (fun r => r.url == c10UrlA)
        = c10Store.filter (fun r => r.url == c10UrlA))
    ∧ (((addSources 1 5 c10Incoming c10Store).filter (fun r => r.url == c10UrlB)).length
        = (c10Store.filter (fun r => r.url == c10UrlB)).length
          + (c10Incoming.filter (fun s => s.url == c10UrlB)).length) :=
  ⟨(c10_addSources_spec 1 5 c10Incoming c10Store).2.1 c10UrlA (by decide),
   (c10_addSources_spec 1 5 c10Incoming c10Store).2.2 c10UrlB (by decide)⟩

theorem map_getD_range {α β : Type} (g : α → β) (d : α) :
    ∀ l : List α, (List.range l.length).map (fun i => g (l.getD i d)) = l.map g := by
  intro l
  induction l with
  | nil => simp
  | cons a t ih =>
      rw [List.length_cons, List.range_succ_eq_map]
      rw [List.map_cons, List.map_map, List.map_cons]
      have hhead : g ((a :: t).getD 0 d) = g a := rfl
      have hfun : ((fun i => g ((a :: t).getD i d)) ∘ (· + 1))
          = (fun i => g (t.getD i d)) := by
        funext i
        rfl
      rw [hhead, hfun, ih]

/-- C8: when the embedding provider's response items are a permutation of
the request batch, each tagged with its explicit `index` and carrying the
embedding of the text at that index, `embedTextBatch` returns the embeddings
re-sorted into input order, and the insert loop therefore pairs each chunk
text with that chunk's own embedding. -/
theorem c8_embed_batch_pairing :
    ∀ (texts : List (List Char)) (resp : List EmbeddingItem)
      (embedOf : List Char → List ℚ),
      (resp.map (fun e => e.index)).Perm (List.range texts.length) →
      (∀ e ∈ resp, e.embedding = embedOf (texts.getD e.index [])) →
      embedTextBatch texts resp = texts.map embedOf
      ∧ insertChunkPairs texts (embedTextBatch texts resp)
          = texts.map (fun t => (t, embedOf t)) := by
  intro texts resp embedOf hperm hvals
  have hmain : embedTextBatch texts resp = texts.map embedOf := by
    rw [embedTextBatch]
    by_cases h0 : texts.length = 0
    · rw [if_pos h0]
      have hnil : texts = [] := List.eq_nil_of_length_eq_zero h0
      simp [hnil]
    · rw [if_neg h0]
      have hidx : (resp.mergeSort byIndexLE).map (fun e => e.index)
          = List.range texts.length := by
        have hms : (resp.mergeSort byIndexLE).map (fun e => e.index)
            = (resp.map (fun e => e.index)).mergeSort (fun a b => decide (a ≤ b)) :=
          List.map_mergeSort (fun a _ b _ => rfl)
        rw [hms]
        have hp : List.Pairwise (fun a b : ℕ => decide (a ≤ b) = true)
            ((resp.map (fun e => e.index)).mergeSort (fun a b => decide (a ≤ b))) :=
          List.sorted_mergeSort
            (fun a b c hab hbc => by
              simp only [decide_eq_true_eq] at hab hbc ⊢; omega)
            (fun a b => by
              simp only [Bool.or_eq_true, decide_eq_true_eq]; omega)
            (resp.map (fun e => e.index))
        have hsorted1 : List.Sorted (· ≤ ·)
            ((resp.map (fun e => e.index)).mergeSort (fun a b => decide (a ≤ b))) :=
          hp.imp (fun h => of_decide_eq_true h)
        have hsorted2 : List.Sorted (· ≤ ·) (List.range texts.length) :=
          List.pairwise_le_range _
        exact List.eq_of_perm_of_sorted
          ((List.mergeSort_perm _ _).trans hperm) hsorted1 hsorted2
      calc (resp.mergeSort byIndexLE).map (fun d => d.embedding)
          = (resp.mergeSort byIndexLE).map
              (fun d => embedOf (texts.getD d.index [])) :=
            List.map_congr_left (fun e he => hvals e (List.mem_mergeSort.1 he))
        _ = (List.range texts.length).map (fun i => embedOf (texts.getD i [])) := by
            rw [← hidx, List.map_map]
            rfl
        _ = texts.map embedOf := map_getD_range embedOf [] texts
  refine ⟨hmain, ?_⟩
  rw [hmain, insertChunkPairs]
  have hpoint : ∀ j ∈ List.range texts.length,
      (texts.getD j [], (texts.map embedOf).getD j [])
        = (texts.getD j [], embedOf (texts.getD j [])) := by
    intro j hj
    have hjlt : j < texts.length := List.mem_range.1 hj
    have : (texts.map embedOf).getD j [] = embedOf (texts.getD j []) := by
      rw [List.getD_eq_getElem?_getD, List.getD_eq_getElem?_getD,
        List.getElem?_map, List.getElem?_eq_getElem hjlt]
      rfl
    rw [this]
  rw [List.map_congr_left hpoint]
  exact map_getD_range (fun t => (t, embedOf t)) [] texts

/-- C8, witness: two texts whose embeddings come back in swapped order with
explicit indices are re-associated correctly. -/
theorem c8_embed_batch_witness :
    embedTextBatch c8Texts c8Resp = c8Texts.map c8EmbedOf
    ∧ insertChunkPairs c8Texts (embedTextBatch c8Texts c8Resp)
        = c8Texts.map (fun t => (t, c8EmbedOf t)) :=
  ⟨(c8_embed_batch_pairing c8Texts c8Resp c8EmbedOf (by decide) (by decide)).1,
   (c8_embed_batch_pairing c8Texts c8Resp c8EmbedOf (by decide) (by decide)).2⟩

theorem filter_replaceStages (pid now : ℕ) (drafts : List StageDraft)
    (prior : List StageRow) :
    (replaceStages pid now drafts prior).filter (fun s => s.personId == pid)
      = (drafts.mergeSort draftLE).map (stageRowOfDraft pid now) := by
  rw [replaceStages, List.filter_append]
  have h1 : (prior.filter (fun s => s.personId != pid)).filter
      (fun s => s.personId == pid) = [] := by
    rw [List.filter_filter]
    apply List.filter_eq_nil_iff.2
    intro a _
    simp only [bne_iff_ne, beq_iff_eq, Bool.and_eq_true, decide_eq_true_eq]
    intro hcontra
    exact hcontra.2 hcontra.1
  have h2 : ((drafts.mergeSort draftLE).map (stageRowOfDraft pid now)).filter
        (fun s => s.personId == pid)
      = (drafts.mergeSort draftLE).map (stageRowOfDraft pid now) := by
    apply List.filter_eq_self.2
    intro a ha
    rcases List.mem_map.1 ha with ⟨d, _, rfl⟩
    simp [stageRowOfDraft]
  rw [h1, h2, List.nil_append]

/-- C2, counterexample: segmentation does not re-index stage orders.  With
three well-formed drafts whose explicit `order` fields are 5, 7, 9, the
stages stored by `replaceStages` keep those order values, so no stage has
order 0 and the orders are not dense from 0. -/
theorem c2_counterexample_not_reindexed :
    (0 : ℚ) ∉ ((eraSegmentation 1 0 c2BadDrafts []).map (fun s => s.order)) := by
  intro hmem
  rw [eraSegmentation, replaceStages] at hmem
  rw [List.filter_nil, List.nil_append, List.map_map] at hmem
  rcases List.mem_map.1 hmem with ⟨d, hd, hord⟩
  rw [List.mem_mergeSort] at hd
  have hall : ∀ d ∈ segmentationDrafts c2BadDrafts,
      ¬ (((fun s : StageRow => s.order) ∘ stageRowOfDraft 1 0) d = 0) := by decide
  exact hall d hd hord

/-- C2, amended: after segmentation the person's stages are the normalized
drafts sorted ascending by their explicit `order` field, each keeping its
draft's own order value (no re-indexing).  The order values are therefore
the ascending sort of the drafts' orders, and they are unique and dense from
0 exactly in the case where the drafts' order values form a permutation of
`0..n-1` (as with index-defaulted drafts). -/
theorem c2_amended_orders_sorted :
    ∀ (pid now : ℕ) (parsedStages : List RawStageDraft) (prior : List StageRow),
      (((eraSegmentation pid now parsedStages prior).filter
            (fun s => s.personId == pid)).map (fun s => s.order)
        = ((segmentationDrafts parsedStages).map (fun d => d.order)).mergeSort
            (fun a b => decide (a ≤ b)))
      ∧ (((segmentationDrafts parsedStages).map (fun d => d.order)).Perm
            ((List.range (segmentationDrafts parsedStages).length).map
              (fun i : ℕ => (i : ℚ))) →
          ((eraSegmentation pid now parsedStages prior).filter
              (fun s => s.personId == pid)).map (fun s => s.order)
            = (List.range (segmentationDrafts parsedStages).length).map
                (fun i : ℕ => (i : ℚ))) := by
  intro pid now parsed prior
  have hbase : ((eraSegmentation pid now parsed prior).filter
        (fun s => s.personId == pid)).map (fun s => s.order)
      = ((segmentationDrafts parsed).map (fun d => d.order)).mergeSort
          (fun a b => decide (a ≤ b)) := by
    rw [eraSegmentation, filter_replaceStages, List.map_map]
    have hcomp : ((fun s : StageRow => s.order) ∘ stageRowOfDraft pid now)
        = (fun d : StageDraft => d.order) := rfl
    rw [hcomp]
    exact List.map_mergeSort (fun a _ b _ => rfl)
  refine ⟨hbase, ?_⟩
  intro hperm
  rw [hbase]
  have hsorted2 : List.Sorted (· ≤ ·)
      ((List.range (segmentationDrafts parsed).length).map (fun i : ℕ => (i : ℚ))) := by
    exact List.Pairwise.map (fun i : ℕ => (i : ℚ))
      (fun a b h => by
        show ((a : ℚ) ≤ (b : ℚ))
        exact_mod_cast Nat.le_of_lt h)
      (List.pairwise_lt_range _)
  have hp : List.Pairwise (fun a b : ℚ => decide (a ≤ b) = true)
      (((segmentationDrafts parsed).map (fun d => d.order)).mergeSort
        (fun a b => decide (a ≤ b))) :=
    List.sorted_mergeSort
      (fun a b c hab hbc => by
        simp only [decide_eq_true_eq] at hab hbc ⊢
        exact le_trans hab hbc)
      (fun a b => by
        simp only [Bool.or_eq_true, decide_eq_true_eq]
        exact le_total a b)
      ((segmentationDrafts parsed).map (fun d => d.order))
  have hsorted1 : List.Sorted (· ≤ ·)
      (((segmentationDrafts parsed).map (fun d => d.order)).mergeSort
        (fun a b => decide (a ≤ b))) :=
    hp.imp (fun h => of_decide_eq_true h)
  exact List.eq_of_perm_of_sorted
    ((List.mergeSort_perm _ _).trans hperm) hsorted1 hsorted2

/-- C2, witness: with drafts whose explicit orders are the permutation
2, 0, 1, the stored stage orders are 0, 1, 2 — unique and dense from 0. -/
theorem c2_dense_witness :
    ((eraSegmentation 1 0 c2PermDrafts []).filter (fun s => s.personId == 1)).map
        (fun s => s.order)
      = (List.range (segmentationDrafts c2PermDrafts).length).map
          (fun i : ℕ => (i : ℚ)) :=
  (c2_amended_orders_sorted 1 0 c2PermDrafts []).2 (by decide)

theorem byScoreDesc_trans : ∀ a b c : ScoredChunk,
    byScoreDesc a b → byScoreDesc b c → byScoreDesc a c := by
  intro a b c hab hbc
  simp only [byScoreDesc, decide_eq_true_eq] at hab hbc ⊢
  exact le_trans hbc hab

theorem byScoreDesc_total : ∀ a b : ScoredChunk,
    byScoreDesc a b || byScoreDesc b a := by
  intro a b
  simp only [byScoreDesc, Bool.or_eq_true, decide_eq_true_eq]
  exact Or.symm (le_total a.score b.score)

theorem sorted_scores_pairwise (q : List ℚ) (pool : List ChunkDoc) :
    List.Pairwise (fun a b : ScoredChunk => b.score ≤ a.score)
      ((scoreChunks q pool).mergeSort byScoreDesc) := by
  have hp : List.Pairwise (fun a b : ScoredChunk => byScoreDesc a b = true)
      ((scoreChunks q pool).mergeSort byScoreDesc) :=
    List.sorted_mergeSort byScoreDesc_trans byScoreDesc_total (scoreChunks q pool)
  exact hp.imp (fun h => of_decide_eq_true h)

theorem rankTopK_pairwise (q : List ℚ) (pool : List ChunkDoc) (k : ℕ) :
    List.Pairwise (fun a b : ScoredChunk => b.score ≤ a.score)
      (rankTopK q pool k) :=
  (sorted_scores_pairwise q pool).sublist (List.take_sublist _ _)

theorem rankTopK_length (q : List ℚ) (pool : List ChunkDoc) (k : ℕ) :
    (rankTopK q pool k).length = min k pool.length := by
  rw [rankTopK, List.length_take, List.length_mergeSort]
  rw [scoreChunks, List.length_map]

theorem rankTopK_topk (q : List ℚ) (pool : List ChunkDoc) (k : ℕ) :
    ∃ rest : List ScoredChunk,
      ((rankTopK q pool k) ++ rest).Perm (scoreChunks q pool)
      ∧ ∀ x ∈ rankTopK q pool k, ∀ y ∈ rest, y.score ≤ x.score := by
  refine ⟨((scoreChunks q pool).mergeSort byScoreDesc).drop k, ?_, ?_⟩
  · rw [rankTopK, List.take_append_drop]
    exact List.mergeSort_perm _ _
  · intro x hx y hy
    have hp' : List.Pairwise (fun a b : ScoredChunk => b.score ≤ a.score)
        (((scoreChunks q pool).mergeSort byScoreDesc).take k
          ++ ((scoreChunks q pool).mergeSort byScoreDesc).drop k) := by
      rw [List.take_append_drop]
      exact sorted_scores_pairwise q pool
    exact (List.pairwise_append.1 hp').2.2 x hx y hy

/-- C6: `scoreAndSelectChunks` returns chunks ranked by cosine similarity
descending; it uses the cross-person fallback pool exactly when the
stage-scoped result count `min(topK, #stageChunks)` is below
`max(3, ⌊topK/2⌋)`; the returned list is the top-K of the pool it ranked
(every returned score dominates every left-out score, and the returned and
left-out chunks together are exactly the scored pool); and a stage with no
linked chunks together with at least 8 chunks for the person yields
`usedFallback = true` with a non-empty result. -/
theorem c6_scoreAndSelectChunks_spec :
    ∀ (q : List ℚ) (stageChunks allChunks : List ChunkDoc) (topKArg : Option ℕ),
      ((scoreAndSelectChunks q stageChunks allChunks topKArg).usedFallback = true
        ↔ min (topKArg.getD 8) stageChunks.length < max 3 (topKArg.getD 8 / 2))
      ∧ List.Pairwise (fun a b : SelectedChunk => b.score ≤ a.score)
          (scoreAndSelectChunks q stageChunks allChunks topKArg).chunks
      ∧ ((scoreAndSelectChunks q stageChunks allChunks topKArg).chunks.length
          = min (topKArg.getD 8)
              (if (scoreAndSelectChunks q stageChunks allChunks topKArg).usedFallback
                then allChunks.length else stageChunks.length))
      ∧ ((scoreAndSelectChunks q stageChunks allChunks topKArg).usedFallback = true →
          ∃ rest : List ScoredChunk,
            ((scoreAndSelectChunks q stageChunks allChunks topKArg).chunks
                ++ rest.map toSelected).Perm
              ((scoreChunks q allChunks).map toSelected)
            ∧ ∀ x ∈ (scoreAndSelectChunks q stageChunks allChunks topKArg).chunks,
                ∀ y ∈ rest, y.score ≤ x.score)
      ∧ ((scoreAndSelectChunks q stageChunks allChunks topKArg).usedFallback = false →
          ∃ rest : List ScoredChunk,
            ((scoreAndSelectChunks q stageChunks allChunks topKArg).chunks
                ++ rest.map toSelected).Perm
              ((scoreChunks q stageChunks).map toSelected)
            ∧ ∀ x ∈ (scoreAndSelectChunks q stageChunks allChunks topKArg).chunks,
                ∀ y ∈ rest, y.score ≤ x.score)
      ∧ (stageChunks = [] → 8 ≤ allChunks.length → topKArg = none →
          (scoreAndSelectChunks q stageChunks allChunks topKArg).usedFallback = true
          ∧ (scoreAndSelectChunks q stageChunks allChunks topKArg).chunks ≠ []) := by
  intro q stageChunks allChunks topKArg
  have htopk : ∀ pool : List ChunkDoc, ∀ k,
      ∃ rest : List ScoredChunk,
        (((rankTopK q pool k).map toSelected ++ rest.map toSelected).Perm
          ((scoreChunks q pool).map toSelected))
        ∧ ∀ x ∈ (rankTopK q pool k).map toSelected, ∀ y ∈ rest, y.score ≤ x.score := by
    intro pool k
    rcases rankTopK_topk q pool k with ⟨rest, hperm, hcross⟩
    refine ⟨rest, ?_, ?_⟩
    · rw [← List.map_append]
      exact hperm.map toSelected
    · intro x hx y hy
      rcases List.mem_map.1 hx with ⟨x0, hx0, rfl⟩
      exact hcross x0 hx0 y hy
  have hpair : ∀ pool : List ChunkDoc, ∀ k,
      List.Pairwise (fun a b : SelectedChunk => b.score ≤ a.score)
        ((rankTopK q pool k).map toSelected) := by
    intro pool k
    exact List.Pairwise.map toSelected (fun a b h => h) (rankTopK_pairwise q pool k)
  by_cases hcond : (rankTopK q stageChunks (topKArg.getD 8)).length
      < max 3 (topKArg.getD 8 / 2)
  · have hout : scoreAndSelectChunks q stageChunks allChunks topKArg
        = ⟨true, (rankTopK q allChunks (topKArg.getD 8)).map toSelected⟩ := by
      rw [scoreAndSelectChunks]
      simp only [if_pos hcond]
    have hcond' : min (topKArg.getD 8) stageChunks.length
        < max 3 (topKArg.getD 8 / 2) := by
      rw [rankTopK_length] at hcond
      exact hcond
    rw [hout]
    refine ⟨⟨fun _ => hcond', fun _ => rfl⟩, hpair allChunks _, ?_, ?_, ?_, ?_⟩
    · show ((rankTopK q allChunks (topKArg.getD 8)).map toSelected).length
        = min (topKArg.getD 8) allChunks.length
      rw [List.length_map, rankTopK_length]
    · intro _
      exact htopk allChunks _
    · intro hfalse
      exact absurd hfalse (by simp)
    · intro _ h8 hnone
      refine ⟨rfl, ?_⟩
      intro hnil
      have hnil' : (rankTopK q allChunks (topKArg.getD 8)).map toSelected = [] := hnil
      have hlen : ((rankTopK q allChunks (topKArg.getD 8)).map toSelected).length = 0 := by
        rw [hnil']
        rfl
      rw [List.length_map, rankTopK_length, hnone] at hlen
      simp only [Option.getD_none] at hlen
      omega
  · have hout : scoreAndSelectChunks q stageChunks allChunks topKArg
        = ⟨false, (rankTopK q stageChunks (topKArg.getD 8)).map toSelected⟩ := by
      rw [scoreAndSelectChunks]
      simp only [if_neg hcond]
    have hcond' : ¬ (min (topKArg.getD 8) stageChunks.length
        < max 3 (topKArg.getD 8 / 2)) := by
      rw [rankTopK_length] at hcond
      exact hcond
    rw [hout]
    refine ⟨⟨fun habs => absurd habs (by simp), fun hlt => absurd hlt hcond'⟩,
      hpair stageChunks _, ?_, ?_, ?_, ?_⟩
    · show ((rankTopK q stageChunks (topKArg.getD 8)).map toSelected).length
        = min (topKArg.getD 8) stageChunks.length
      rw [List.length_map, rankTopK_length]
    · intro habs
      exact absurd habs (by simp)
    · intro _
      exact htopk stageChunks _
    · intro hnilstage h8 hnone
      exfalso
      apply hcond'
      rw [hnilstage, hnone]
      simp

/-- C6, witness: an empty stage pool with 8 person chunks and the default
`topK` triggers the fallback with a non-empty, score-sorted result. -/
theorem c6_fallback_witness :
    (scoreAndSelectChunks c6Query [] c6AllChunks none).usedFallback = true
    ∧ (scoreAndSelectChunks c6Query [] c6AllChunks none).chunks ≠ [] :=
  (c6_scoreAndSelectChunks_spec c6Query [] c6AllChunks none).2.2.2.2.2
    rfl (by decide) rfl

end Timeline


